import Mathlib

/-!
Verification of the revenue allocation and reconciliation engine in
`process_data.py` (class `RevenueDistributor`).  The Python code is embedded
shallowly: floats are modelled as exact rationals, `Decimal` quantities as
rationals, database tables as lists of records, and the persisting
transaction as an explicit state transition that either commits or leaves
the table unchanged.
-/

namespace RevenueDist

/-- Python `int(x)` applied to a non-integer number truncates toward zero. -/
def pyTrunc (x : ℚ) : ℤ := if 0 ≤ x then ⌊x⌋ else ⌈x⌉

/-- Python `x % 1`: the result has the sign of the divisor, so it equals
`x - ⌊x⌋` for every finite `x`. -/
def pyMod1 (x : ℚ) : ℚ := x - ⌊x⌋

/-- One step of the Python loop `distributed[i] += 1`. -/
def addOneAt (l : List ℤ) (i : ℕ) : List ℤ := l.set i (l.getD i 0 + 1)

/-- The sort key used at line 116-117 of `process_data.py`:
`sorted(range(len(weights)), key=lambda i: (-fractions[i], i))`.
Index `i` is ordered before index `j` iff `(-fractions[i], i)` is
lexicographically at most `(-fractions[j], j)`. -/
def lrmRel (fractions : List ℚ) (i j : ℕ) : Prop :=
  fractions.getD j 0 < fractions.getD i 0 ∨
    (fractions.getD i 0 = fractions.getD j 0 ∧ i ≤ j)

instance lrmRelDecidable (fractions : List ℚ) : DecidableRel (lrmRel fractions) :=
  fun i j =>
    decidable_of_iff
      (fractions.getD j 0 < fractions.getD i 0 ∨
        (fractions.getD i 0 = fractions.getD j 0 ∧ i ≤ j)) Iff.rfl

/-- Line 106: `normalized_weights = [w / weight_sum for w in weights]`. -/
def lrmNormalized (weights : List ℚ) : List ℚ :=
  weights.map fun w => w / weights.sum

/-- Line 109: `distributed = [int(total * w) for w in normalized_weights]`. -/
def lrmDistributed (total : ℤ) (weights : List ℚ) : List ℤ :=
  (lrmNormalized weights).map fun w => pyTrunc ((total : ℚ) * w)

/-- Line 110: `remainder = total - sum(distributed)`. -/
def lrmRemainder (total : ℤ) (weights : List ℚ) : ℤ :=
  total - (lrmDistributed total weights).sum

/-- Line 114: `fractions = [(total * w) % 1 for w in normalized_weights]`. -/
def lrmFractions (total : ℤ) (weights : List ℚ) : List ℚ :=
  (lrmNormalized weights).map fun w => pyMod1 ((total : ℚ) * w)

/-- Lines 116-117: `indices = sorted(range(len(weights)), key=lambda i: (-fractions[i], i))`,
modelled with a stable insertion sort, which agrees with
Python's stable `sorted` under this (total, antisymmetric) key order. -/
def lrmIndices (total : ℤ) (weights : List ℚ) : List ℕ :=
  (List.range weights.length).insertionSort (lrmRel (lrmFractions total weights))

/-- The method `largest_remainder_method` (lines 90-123 of `process_data.py`). -/
def largest_remainder_method (total : ℤ) (weights : List ℚ) : List ℤ :=
  if weights = [] ∨ weights.sum = 0 then
    List.replicate weights.length 0
  else if 0 < lrmRemainder total weights then
    ((lrmIndices total weights).take (lrmRemainder total weights).toNat).foldl
      addOneAt (lrmDistributed total weights)
  else
    lrmDistributed total weights

/-! ### Basic facts about the allocator's building blocks -/

theorem pyTrunc_eq_floor {x : ℚ} (hx : 0 ≤ x) : pyTrunc x = ⌊x⌋ := if_pos hx

theorem sum_map_div (l : List ℚ) (s : ℚ) :
    (l.map fun w => w / s).sum = l.sum / s := by
  induction l with
  | nil => simp
  | cons a t ih => simp [ih, div_add_div_same]

theorem lrmNormalized_sum {weights : List ℚ} (h : weights.sum ≠ 0) :
    (lrmNormalized weights).sum = 1 := by
  unfold lrmNormalized
  rw [sum_map_div, div_self h]

theorem lrmNormalized_nonneg {weights : List ℚ} (hw : ∀ w ∈ weights, 0 ≤ w)
    (hs : 0 < weights.sum) : ∀ w ∈ lrmNormalized weights, 0 ≤ w := by
  intro w hwmem
  unfold lrmNormalized at hwmem
  obtain ⟨a, ha, rfl⟩ := List.mem_map.mp hwmem
  exact div_nonneg (hw a ha) hs.le

theorem lrmNormalized_length (weights : List ℚ) :
    (lrmNormalized weights).length = weights.length := by
  simp [lrmNormalized]

theorem lrmDistributed_length (total : ℤ) (weights : List ℚ) :
    (lrmDistributed total weights).length = weights.length := by
  simp [lrmDistributed, lrmNormalized]

theorem floor_map_sum_bounds (t : ℚ) (l : List ℚ) (hl : ∀ w ∈ l, 0 ≤ w)
    (ht : 0 ≤ t) :
    t * l.sum - l.length ≤ ((l.map fun w => pyTrunc (t * w)).sum : ℚ) ∧
      ((l.map fun w => pyTrunc (t * w)).sum : ℚ) ≤ t * l.sum := by
  induction l with
  | nil => simp
  | cons a tl ih =>
    have ha : 0 ≤ a := hl a (List.mem_cons_self a tl)
    obtain ⟨ih1, ih2⟩ := ih fun w hw => hl w (List.mem_cons_of_mem a hw)
    have hta : 0 ≤ t * a := mul_nonneg ht ha
    have h1 : ((⌊t * a⌋ : ℤ) : ℚ) ≤ t * a := Int.floor_le _
    have h2 : t * a - 1 ≤ ((⌊t * a⌋ : ℤ) : ℚ) := (Int.sub_one_lt_floor _).le
    have hdist : t * (a + tl.sum) = t * a + t * tl.sum := by ring
    simp only [List.map_cons, List.sum_cons, List.length_cons,
      pyTrunc_eq_floor hta]
    push_cast
    push_cast at ih1 ih2
    constructor
    · linarith
    · linarith

theorem lrmRemainder_bounds (total : ℤ) (weights : List ℚ) (ht : 0 ≤ total)
    (hw : ∀ w ∈ weights, 0 ≤ w) (hs : 0 < weights.sum) :
    0 ≤ lrmRemainder total weights ∧
      lrmRemainder total weights ≤ weights.length := by
  have hsum := lrmNormalized_sum (ne_of_gt hs)
  have hnn := lrmNormalized_nonneg hw hs
  have ht' : (0 : ℚ) ≤ (total : ℚ) := by exact_mod_cast ht
  obtain ⟨h1, h2⟩ := floor_map_sum_bounds (total : ℚ) (lrmNormalized weights) hnn ht'
  rw [hsum, mul_one] at h1 h2
  rw [lrmNormalized_length] at h1
  have h1' : (total : ℤ) - weights.length ≤ (lrmDistributed total weights).sum := by
    unfold lrmDistributed; exact_mod_cast h1
  have h2' : (lrmDistributed total weights).sum ≤ total := by
    unfold lrmDistributed; exact_mod_cast h2
  unfold lrmRemainder
  omega

theorem lrmDistributed_nonneg (total : ℤ) (weights : List ℚ) (ht : 0 ≤ total)
    (hw : ∀ w ∈ weights, 0 ≤ w) (hs : 0 < weights.sum) :
    ∀ x ∈ lrmDistributed total weights, 0 ≤ x := by
  intro x hx
  unfold lrmDistributed at hx
  obtain ⟨w, hwmem, rfl⟩ := List.mem_map.mp hx
  have hw0 : 0 ≤ w := lrmNormalized_nonneg hw hs w hwmem
  have ht' : (0 : ℚ) ≤ (total : ℚ) := by exact_mod_cast ht
  have : (0 : ℚ) ≤ (total : ℚ) * w := mul_nonneg ht' hw0
  rw [pyTrunc_eq_floor this]
  exact Int.le_floor.mpr (by exact_mod_cast this)

theorem length_addOneAt (l : List ℤ) (i : ℕ) :
    (addOneAt l i).length = l.length := by
  simp [addOneAt]

theorem getD_nonneg_of_forall {l : List ℤ} (h : ∀ x ∈ l, 0 ≤ x) (k : ℕ) :
    0 ≤ l.getD k 0 := by
  induction l generalizing k with
  | nil => simp
  | cons a t ih =>
    cases k with
    | zero => simpa using h a (List.mem_cons_self a t)
    | succ n => simpa using ih (fun x hx => h x (List.mem_cons_of_mem a hx)) n

theorem sum_addOneAt {l : List ℤ} {i : ℕ} (h : i < l.length) :
    (addOneAt l i).sum = l.sum + 1 := by
  induction l generalizing i with
  | nil => simp at h
  | cons a t ih =>
    cases i with
    | zero => simp [addOneAt]; ring
    | succ n =>
      have hn : n < t.length := by simpa using h
      have := ih hn
      simp only [addOneAt, List.getD_cons_succ, List.set_cons_succ,
        List.sum_cons] at this ⊢
      omega

theorem foldl_addOneAt_length (idxs : List ℕ) (l : List ℤ) :
    (idxs.foldl addOneAt l).length = l.length := by
  induction idxs generalizing l with
  | nil => rfl
  | cons j t ih => simp [List.foldl_cons, ih, length_addOneAt]

theorem foldl_addOneAt_sum (idxs : List ℕ) (l : List ℤ)
    (h : ∀ i ∈ idxs, i < l.length) :
    (idxs.foldl addOneAt l).sum = l.sum + idxs.length := by
  induction idxs generalizing l with
  | nil => simp
  | cons j t ih =>
    have hj : j < l.length := h j (List.mem_cons_self j t)
    have ht' : ∀ i ∈ t, i < (addOneAt l j).length := by
      intro i hi; rw [length_addOneAt]; exact h i (List.mem_cons_of_mem j hi)
    simp only [List.foldl_cons, List.length_cons]
    rw [ih (addOneAt l j) ht', sum_addOneAt hj]
    push_cast
    ring

theorem foldl_addOneAt_nonneg (idxs : List ℕ) (l : List ℤ)
    (h : ∀ x ∈ l, 0 ≤ x) : ∀ x ∈ idxs.foldl addOneAt l, 0 ≤ x := by
  induction idxs generalizing l with
  | nil => exact h
  | cons j t ih =>
    intro x hx
    refine ih (addOneAt l j) ?_ x hx
    intro y hy
    rcases List.mem_or_eq_of_mem_set hy with h1 | rfl
    · exact h y h1
    · have := getD_nonneg_of_forall h j
      omega

theorem lrmIndices_perm (total : ℤ) (weights : List ℚ) :
    (lrmIndices total weights).Perm (List.range weights.length) :=
  List.perm_insertionSort _ _

theorem weights_ne_nil_of_sum_pos {weights : List ℚ} (hs : 0 < weights.sum) :
    ¬(weights = [] ∨ weights.sum = 0) := by
  rintro (rfl | h0)
  · simp at hs
  · exact (ne_of_gt hs) h0

/-- C1 core: under the quota-allocator contract hypotheses the output has the
input's length, is elementwise non-negative, and sums exactly to `total`. -/
theorem allocator_core (total : ℤ) (weights : List ℚ) (ht : 0 ≤ total)
    (hw : ∀ w ∈ weights, 0 ≤ w) (hs : 0 < weights.sum) :
    (largest_remainder_method total weights).length = weights.length ∧
      (∀ x ∈ largest_remainder_method total weights, 0 ≤ x) ∧
      (largest_remainder_method total weights).sum = total := by
  have hne := weights_ne_nil_of_sum_pos hs
  have hfl_len := lrmDistributed_length total weights
  have hfl_nonneg := lrmDistributed_nonneg total weights ht hw hs
  obtain ⟨hr0, hrn⟩ := lrmRemainder_bounds total weights ht hw hs
  unfold largest_remainder_method
  rw [if_neg hne]
  by_cases hr : 0 < lrmRemainder total weights
  · rw [if_pos hr]
    have hmem : ∀ i ∈ (lrmIndices total weights).take
        (lrmRemainder total weights).toNat, i < (lrmDistributed total weights).length := by
      intro i hi
      have hi' : i ∈ List.range weights.length :=
        (lrmIndices_perm total weights).mem_iff.mp (List.take_subset _ _ hi)
      rw [hfl_len]
      exact List.mem_range.mp hi'
    have hlen_chosen : ((lrmIndices total weights).take
        (lrmRemainder total weights).toNat).length =
          (lrmRemainder total weights).toNat := by
      rw [List.length_take, (lrmIndices_perm total weights).length_eq,
        List.length_range]
      exact min_eq_left (Int.toNat_le.mpr hrn)
    refine ⟨?_, ?_, ?_⟩
    · rw [foldl_addOneAt_length, hfl_len]
    · exact foldl_addOneAt_nonneg _ _ hfl_nonneg
    · rw [foldl_addOneAt_sum _ _ hmem, hlen_chosen]
      have hcast : ((lrmRemainder total weights).toNat : ℤ) =
          lrmRemainder total weights := Int.toNat_of_nonneg hr0
      have hdef : lrmRemainder total weights =
          total - (lrmDistributed total weights).sum := rfl
      omega
  · rw [if_neg hr]
    have h0 : lrmRemainder total weights = 0 := le_antisymm (not_lt.mp hr) hr0
    have hdef : lrmRemainder total weights =
        total - (lrmDistributed total weights).sum := rfl
    exact ⟨hfl_len, hfl_nonneg, by omega⟩

theorem lrm_example : largest_remainder_method 10 [(1 : ℚ), 1, 1] = [4, 3, 3] := by
  norm_num [largest_remainder_method, lrmRemainder, lrmDistributed,
    lrmNormalized, lrmIndices, lrmFractions, pyTrunc, pyMod1, addOneAt,
    lrmRel, List.insertionSort, List.orderedInsert]
  exact fun h => absurd h (List.cons_ne_nil _ _)

/-! ### The remainder-distribution characterization -/

theorem getD_addOneAt (l : List ℤ) (j : ℕ) (hj : j < l.length) (k : ℕ) :
    (addOneAt l j).getD k 0 = l.getD k 0 + if k = j then 1 else 0 := by
  induction l generalizing j k with
  | nil => simp at hj
  | cons a t ih =>
    cases j with
    | zero =>
      cases k with
      | zero => simp [addOneAt]
      | succ m => simp [addOneAt]
    | succ n =>
      have hn : n < t.length := by simpa using hj
      cases k with
      | zero => simp [addOneAt]
      | succ m =>
        have hrec := ih n hn m
        simp only [addOneAt, List.getD_cons_succ, List.set_cons_succ] at hrec ⊢
        rw [hrec]
        by_cases hmn : m = n <;> simp [hmn]

theorem getD_foldl_addOneAt (idxs : List ℕ) (l : List ℤ) (hnd : idxs.Nodup)
    (h : ∀ i ∈ idxs, i < l.length) (k : ℕ) :
    (idxs.foldl addOneAt l).getD k 0 =
      l.getD k 0 + if k ∈ idxs then 1 else 0 := by
  induction idxs generalizing l with
  | nil => simp
  | cons j t ih =>
    have hj : j < l.length := h j (List.mem_cons_self j t)
    obtain ⟨hjt, hnd'⟩ := List.nodup_cons.mp hnd
    have hmem : ∀ i ∈ t, i < (addOneAt l j).length := by
      intro i hi; rw [length_addOneAt]; exact h i (List.mem_cons_of_mem j hi)
    simp only [List.foldl_cons]
    rw [ih (addOneAt l j) hnd' hmem, getD_addOneAt l j hj k]
    by_cases hkj : k = j
    · subst hkj
      simp [hjt]
    · simp [hkj, List.mem_cons]

theorem lrmRel_total_pair (f : List ℚ) (i j : ℕ) :
    lrmRel f i j ∨ lrmRel f j i := by
  unfold lrmRel
  rcases lt_trichotomy (f.getD i 0) (f.getD j 0) with h | h | h
  · exact Or.inr (Or.inl h)
  · by_cases hij : i ≤ j
    · exact Or.inl (Or.inr ⟨h, hij⟩)
    · exact Or.inr (Or.inr ⟨h.symm, le_of_not_le hij⟩)
  · exact Or.inl (Or.inl h)

theorem lrmRel_trans_triple (f : List ℚ) (i j k : ℕ) :
    lrmRel f i j → lrmRel f j k → lrmRel f i k := by
  unfold lrmRel
  rintro (h1 | ⟨h1, h1'⟩) (h2 | ⟨h2, h2'⟩)
  · exact Or.inl (h2.trans h1)
  · exact Or.inl (by rw [← h2]; exact h1)
  · exact Or.inl (by rw [h1]; exact h2)
  · exact Or.inr ⟨h1.trans h2, h1'.trans h2'⟩

theorem lrmIndices_sorted (total : ℤ) (weights : List ℚ) :
    List.Sorted (lrmRel (lrmFractions total weights))
      (lrmIndices total weights) := by
  haveI : IsTotal ℕ (lrmRel (lrmFractions total weights)) :=
    ⟨lrmRel_total_pair _⟩
  haveI : IsTrans ℕ (lrmRel (lrmFractions total weights)) :=
    ⟨fun i j k => lrmRel_trans_triple _ i j k⟩
  exact List.sorted_insertionSort _ _

theorem lrmIndices_nodup (total : ℤ) (weights : List ℚ) :
    (lrmIndices total weights).Nodup :=
  (lrmIndices_perm total weights).nodup_iff.mpr (List.nodup_range _)

theorem lrm_out_pos (total : ℤ) (weights : List ℚ) (hs : 0 < weights.sum)
    (hr : 0 < lrmRemainder total weights) :
    largest_remainder_method total weights =
      ((lrmIndices total weights).take (lrmRemainder total weights).toNat).foldl
        addOneAt (lrmDistributed total weights) := by
  unfold largest_remainder_method
  rw [if_neg (weights_ne_nil_of_sum_pos hs), if_pos hr]

theorem lrm_out_nonpos (total : ℤ) (weights : List ℚ) (hs : 0 < weights.sum)
    (hr : ¬0 < lrmRemainder total weights) :
    largest_remainder_method total weights = lrmDistributed total weights := by
  unfold largest_remainder_method
  rw [if_neg (weights_ne_nil_of_sum_pos hs), if_neg hr]

theorem lrmChosen_length (total : ℤ) (weights : List ℚ) (ht : 0 ≤ total)
    (hw : ∀ w ∈ weights, 0 ≤ w) (hs : 0 < weights.sum) :
    ((lrmIndices total weights).take (lrmRemainder total weights).toNat).length =
      (lrmRemainder total weights).toNat := by
  obtain ⟨-, hrn⟩ := lrmRemainder_bounds total weights ht hw hs
  rw [List.length_take, (lrmIndices_perm total weights).length_eq,
    List.length_range]
  exact min_eq_left (Int.toNat_le.mpr hrn)

/-- C2: the allocator's remainder distribution adds exactly `R` increments of
one unit, and every incremented index beats every non-incremented index on
(fractional part, then lower original index); the spec's worked example
`total = 10, weights = [1,1,1] ↦ [4,3,3]` also holds.  Determinism is
intrinsic: the embedding is a function of `(total, weights)` alone. -/
theorem quota_allocator_choice (total : ℤ) (weights : List ℚ)
    (ht : 0 ≤ total) (hw : ∀ w ∈ weights, 0 ≤ w) (hs : 0 < weights.sum) :
    (∀ k < weights.length,
        (largest_remainder_method total weights).getD k 0 =
            (lrmDistributed total weights).getD k 0 ∨
          (largest_remainder_method total weights).getD k 0 =
            (lrmDistributed total weights).getD k 0 + 1) ∧
      (List.range weights.length).countP (fun k =>
          decide ((largest_remainder_method total weights).getD k 0 =
            (lrmDistributed total weights).getD k 0 + 1)) =
        (lrmRemainder total weights).toNat ∧
      (∀ i < weights.length, ∀ j < weights.length,
          (largest_remainder_method total weights).getD i 0 =
              (lrmDistributed total weights).getD i 0 + 1 →
          (largest_remainder_method total weights).getD j 0 =
              (lrmDistributed total weights).getD j 0 →
          (lrmFractions total weights).getD j 0 <
              (lrmFractions total weights).getD i 0 ∨
            ((lrmFractions total weights).getD i 0 =
                (lrmFractions total weights).getD j 0 ∧ i < j)) ∧
      largest_remainder_method 10 [(1 : ℚ), 1, 1] = [4, 3, 3] := by
  obtain ⟨hr0, hrn⟩ := lrmRemainder_bounds total weights ht hw hs
  by_cases hr : 0 < lrmRemainder total weights
  · have hout := lrm_out_pos total weights hs hr
    have hnd_chosen : ((lrmIndices total weights).take
        (lrmRemainder total weights).toNat).Nodup :=
      List.Nodup.sublist (List.take_sublist _ _) (lrmIndices_nodup total weights)
    have hmem_lt : ∀ i ∈ (lrmIndices total weights).take
        (lrmRemainder total weights).toNat,
        i < (lrmDistributed total weights).length := by
      intro i hi
      have hi' : i ∈ List.range weights.length :=
        (lrmIndices_perm total weights).mem_iff.mp (List.take_subset _ _ hi)
      rw [lrmDistributed_length]
      exact List.mem_range.mp hi'
    have hgd : ∀ k, (largest_remainder_method total weights).getD k 0 =
        (lrmDistributed total weights).getD k 0 +
          if k ∈ (lrmIndices total weights).take
              (lrmRemainder total weights).toNat then 1 else 0 := by
      intro k
      rw [hout]
      exact getD_foldl_addOneAt _ _ hnd_chosen hmem_lt k
    have hiff : ∀ k, ((largest_remainder_method total weights).getD k 0 =
        (lrmDistributed total weights).getD k 0 + 1) ↔
          k ∈ (lrmIndices total weights).take
            (lrmRemainder total weights).toNat := by
      intro k
      rw [hgd k]
      by_cases hk : k ∈ (lrmIndices total weights).take
          (lrmRemainder total weights).toNat <;> simp [hk]
    refine ⟨?_, ?_, ?_, lrm_example⟩
    · intro k _
      rw [hgd k]
      by_cases hk : k ∈ (lrmIndices total weights).take
          (lrmRemainder total weights).toNat <;> simp [hk]
    · have hcongr : ∀ k ∈ List.range weights.length,
          (decide ((largest_remainder_method total weights).getD k 0 =
            (lrmDistributed total weights).getD k 0 + 1) = true ↔
          decide (k ∈ (lrmIndices total weights).take
            (lrmRemainder total weights).toNat) = true) := by
        intro k _
        simp only [decide_eq_true_eq]
        exact hiff k
      rw [List.countP_congr hcongr, List.countP_eq_length_filter]
      have hsub : ∀ a ∈ (lrmIndices total weights).take
          (lrmRemainder total weights).toNat, a ∈ List.range weights.length := by
        intro a ha
        rw [List.mem_range, ← lrmDistributed_length total weights]
        exact hmem_lt a ha
      have hperm : ((List.range weights.length).filter (fun k =>
          decide (k ∈ (lrmIndices total weights).take
            (lrmRemainder total weights).toNat))).Perm
          ((lrmIndices total weights).take (lrmRemainder total weights).toNat) := by
        refine (List.perm_ext_iff_of_nodup
          (List.Nodup.filter _ (List.nodup_range _)) hnd_chosen).mpr ?_
        intro a
        simp only [List.mem_filter, List.mem_range, decide_eq_true_eq]
        exact ⟨fun h => h.2, fun h => ⟨List.mem_range.mp (hsub a h), h⟩⟩
      rw [hperm.length_eq, lrmChosen_length total weights ht hw hs]
    · intro i hi j hj hinc hnot
      have hic : i ∈ (lrmIndices total weights).take
          (lrmRemainder total weights).toNat := (hiff i).mp hinc
      have hjc : j ∉ (lrmIndices total weights).take
          (lrmRemainder total weights).toNat := by
        intro hc
        rw [hgd j, if_pos hc] at hnot
        omega
      have hij : i ≠ j := fun he => hjc (he ▸ hic)
      have hsplit : (lrmIndices total weights).take
          (lrmRemainder total weights).toNat ++
          (lrmIndices total weights).drop (lrmRemainder total weights).toNat =
            lrmIndices total weights := List.take_append_drop _ _
      have hsorted' : List.Pairwise (lrmRel (lrmFractions total weights))
          ((lrmIndices total weights).take (lrmRemainder total weights).toNat ++
            (lrmIndices total weights).drop (lrmRemainder total weights).toNat) := by
        rw [hsplit]
        exact lrmIndices_sorted total weights
      obtain ⟨-, -, hcross⟩ := List.pairwise_append.mp hsorted'
      have hj_in : j ∈ (lrmIndices total weights).take
          (lrmRemainder total weights).toNat ++
          (lrmIndices total weights).drop (lrmRemainder total weights).toNat := by
        rw [hsplit]
        exact (lrmIndices_perm total weights).mem_iff.mpr (List.mem_range.mpr hj)
      have hjdrop : j ∈ (lrmIndices total weights).drop
          (lrmRemainder total weights).toNat := by
        rcases List.mem_append.mp hj_in with h | h
        · exact absurd h hjc
        · exact h
      have hrel := hcross i hic j hjdrop
      unfold lrmRel at hrel
      rcases hrel with h | ⟨h, hle⟩
      · exact Or.inl h
      · exact Or.inr ⟨h, lt_of_le_of_ne hle hij⟩
  · have hout := lrm_out_nonpos total weights hs hr
    have h0 : lrmRemainder total weights = 0 := le_antisymm (not_lt.mp hr) hr0
    refine ⟨?_, ?_, ?_, lrm_example⟩
    · intro k _
      rw [hout]
      exact Or.inl rfl
    · rw [h0]
      simp only [Int.toNat_zero]
      rw [List.countP_eq_zero]
      intro k _
      rw [hout]
      simp only [decide_eq_true_eq]
      omega
    · intro i _ j _ hinc _
      rw [hout] at hinc
      omega

/-- C2 witness: the characterization applied at `total = 10, weights = [1,1,1]`,
extracting the worked example `[4,3,3]`. -/
theorem quota_allocator_choice_witness :
    0 ≤ (10 : ℤ) ∧ (∀ w ∈ [(1 : ℚ), 1, 1], 0 ≤ w) ∧
      0 < ([(1 : ℚ), 1, 1]).sum ∧
      largest_remainder_method 10 [(1 : ℚ), 1, 1] = [4, 3, 3] :=
  ⟨by norm_num, by norm_num, by norm_num [List.sum_cons, List.sum_nil],
    (quota_allocator_choice 10 [(1 : ℚ), 1, 1] (by norm_num) (by norm_num)
      (by norm_num [List.sum_cons, List.sum_nil])).2.2.2⟩

/-- C1 (amended): when the weights have positive sum, the allocator returns a
list of the input's length whose entries are non-negative and whose sum is
exactly `total`. -/
theorem quota_allocator_sum_eq_total (total : ℤ) (weights : List ℚ)
    (ht : 0 ≤ total) (hw : ∀ w ∈ weights, 0 ≤ w) (hs : 0 < weights.sum) :
    (largest_remainder_method total weights).length = weights.length ∧
      (∀ x ∈ largest_remainder_method total weights, 0 ≤ x) ∧
      (largest_remainder_method total weights).sum = total :=
  allocator_core total weights ht hw hs

/-- C1 witness: the sum postcondition applied at `total = 10,
weights = [1,1,1]`. -/
theorem quota_allocator_sum_eq_total_witness :
    0 ≤ (10 : ℤ) ∧ (∀ w ∈ [(1 : ℚ), 1, 1], 0 ≤ w) ∧
      0 < ([(1 : ℚ), 1, 1]).sum ∧
      (largest_remainder_method 10 [(1 : ℚ), 1, 1]).sum = 10 :=
  ⟨by norm_num, by norm_num, by norm_num [List.sum_cons, List.sum_nil],
    (quota_allocator_sum_eq_total 10 [(1 : ℚ), 1, 1] (by norm_num) (by norm_num)
      (by norm_num [List.sum_cons, List.sum_nil])).2.2⟩

/-- C1 counterexample: for `total = 1` and the non-negative weight vector
`[0]` of length 1, the output sums to 0, not to `total`. -/
theorem quota_allocator_sum_cex :
    1 ≤ ([(0 : ℚ)]).length ∧ (∀ w ∈ [(0 : ℚ)], 0 ≤ w) ∧ 0 ≤ (1 : ℤ) ∧
      (largest_remainder_method 1 [(0 : ℚ)]).sum ≠ 1 := by
  refine ⟨by norm_num, by norm_num, by norm_num, ?_⟩
  norm_num [largest_remainder_method]

/-- C3: whenever the weights sum to zero (in particular for the empty list or
an all-zero list) the allocator returns an all-zero list of the input's
length, so any positive `total` is silently discarded. -/
theorem quota_allocator_zero_weights (total : ℤ) (weights : List ℚ)
    (h : weights.sum = 0) :
    largest_remainder_method total weights = List.replicate weights.length 0 ∧
      (largest_remainder_method total weights).sum = 0 := by
  have hzero : largest_remainder_method total weights =
      List.replicate weights.length 0 := by
    unfold largest_remainder_method
    rw [if_pos (Or.inr h)]
  exact ⟨hzero, by rw [hzero]; simp⟩

/-- C3 witness: a positive total and the all-zero weight vector `[0, 0]`. -/
theorem quota_allocator_zero_weights_witness :
    ([(0 : ℚ), 0]).sum = 0 ∧
      (largest_remainder_method 5 [(0 : ℚ), 0] = List.replicate 2 0 ∧
        (largest_remainder_method 5 [(0 : ℚ), 0]).sum = 0) :=
  ⟨by norm_num, quota_allocator_zero_weights 5 [(0 : ℚ), 0] (by norm_num)⟩

/-! ### Monetary splitter (lines 476-482) -/

/-- Python `Decimal.quantize(Decimal('0.01'), rounding=ROUND_HALF_UP)` on an exact
value: round to two decimal places, ties away from zero. -/
def roundHalfUp2 (x : ℚ) : ℚ :=
  if 0 ≤ x then (⌊x * 100 + 1 / 2⌋ : ℚ) / 100
  else -((⌊(-x) * 100 + 1 / 2⌋ : ℚ) / 100)

/-- Lines 477-478: `campaign_feed_revenue = (feed_revenue * Decimal(str(weights[i]))).quantize(
Decimal('0.01'), rounding=ROUND_HALF_UP)`. -/
def campaignFeedRevenue (feed_revenue w : ℚ) : ℚ := roundHalfUp2 (feed_revenue * w)

/-- Lines 481-482: `pub_revenue = (campaign_feed_revenue * Decimal('0.75')).quantize(
Decimal('0.01'), rounding=ROUND_HALF_UP)`. -/
def pubRevenue (campaign_feed_revenue : ℚ) : ℚ :=
  roundHalfUp2 (campaign_feed_revenue * (75 / 100))

/-- The monetary splitter over a weight vector: per-campaign
(feed-revenue share, publisher revenue) pairs. -/
def distributeRevenueShares (feed_revenue : ℚ) (weights : List ℚ) :
    List (ℚ × ℚ) :=
  weights.map fun w =>
    (campaignFeedRevenue feed_revenue w,
      pubRevenue (campaignFeedRevenue feed_revenue w))

/-! ### Data model and batch distribution run (lines 388-599) -/

/-- A row of the `campaign_clicks` table. -/
structure ClickRow where
  date : String
  campaign_id : ℤ
  campaign_name : String
  fp_feed_id : String
  traffic_source_id : ℤ
  clicks : ℤ
deriving DecidableEq

/-- A row of the `feed_provider_data` table. -/
structure FeedRow where
  date : String
  fp_feed_id : String
  total_searches : ℤ
  monetized_searches : ℤ
  paid_clicks : ℤ
  feed_revenue : ℚ
deriving DecidableEq

/-- A row of the SELECT at lines 402-410. -/
structure JoinRow where
  date : String
  fp_feed_id : String
  total_searches : ℤ
  monetized_searches : ℤ
  paid_clicks : ℤ
  feed_revenue : ℚ
  campaign_id : ℤ
  campaign_name : String
  traffic_source_id : ℤ
  clicks : ℤ
deriving DecidableEq

/-- A row of the `distributed_stats` table (the INSERT at lines 493-508). -/
structure DistributionRecord where
  date : String
  campaign_id : ℤ
  campaign_name : String
  fp_feed_id : String
  traffic_source_id : ℤ
  total_searches : ℤ
  monetized_searches : ℤ
  paid_clicks : ℤ
  feed_revenue : ℚ
  pub_revenue : ℚ
  is_feed_data : Bool
  batch_id : String
deriving DecidableEq

def mkJoinRow (f : FeedRow) (c : ClickRow) : JoinRow :=
  ⟨f.date, f.fp_feed_id, f.total_searches, f.monetized_searches, f.paid_clicks,
    f.feed_revenue, c.campaign_id, c.campaign_name, c.traffic_source_id,
    c.clicks⟩

/-- The LEFT JOIN of lines 406-408 with `WHERE c.clicks > 0`: the WHERE clause
makes the join effectively inner, and a feed with no positive-click campaign
contributes no row. -/
def joinPositiveClicks (feeds : List FeedRow) (clicks : List ClickRow) :
    List JoinRow :=
  feeds.flatMap fun f =>
    (clicks.filter fun c =>
        c.fp_feed_id == f.fp_feed_id && c.date == f.date &&
          decide (0 < c.clicks)).map
      (mkJoinRow f)

/-- Line 409: `ORDER BY f.date, f.fp_feed_id, c.campaign_id`. -/
def joinLe (a b : JoinRow) : Prop :=
  a.date < b.date ∨ (a.date = b.date ∧ (a.fp_feed_id < b.fp_feed_id ∨
    (a.fp_feed_id = b.fp_feed_id ∧ a.campaign_id ≤ b.campaign_id)))

instance joinLeDecidable : DecidableRel joinLe := fun a b =>
  decidable_of_iff
    (a.date < b.date ∨ (a.date = b.date ∧ (a.fp_feed_id < b.fp_feed_id ∨
      (a.fp_feed_id = b.fp_feed_id ∧ a.campaign_id ≤ b.campaign_id)))) Iff.rfl

def sortedJoin (feeds : List FeedRow) (clicks : List ClickRow) : List JoinRow :=
  (joinPositiveClicks feeds clicks).insertionSort joinLe

/-- Python `defaultdict(list)` grouping by `(date, fp_feed_id)` (lines 415-418),
preserving first-seen key order and per-key row order. -/
def groupByKey (rows : List JoinRow) :
    List ((String × String) × List JoinRow) :=
  rows.foldl (fun acc row =>
    if acc.any fun g => g.1 == (row.date, row.fp_feed_id) then
      acc.map fun g =>
        if g.1 == (row.date, row.fp_feed_id) then (g.1, g.2 ++ [row]) else g
    else acc ++ [((row.date, row.fp_feed_id), [row])]) []

/-- Outcome of one iteration of the per-group loop (lines 428-519):
`continue` without records, a successful batch of records, or a caught
`ProcessingError`. -/
inductive GroupOutcome where
  | skipped
  | ok (records : List DistributionRecord)
  | failed (msg : String)
deriving DecidableEq

/-- The body of the per-group loop (lines 429-510). -/
def processGroup (batch_id : String) (key : String × String)
    (campaigns : List JoinRow) : GroupOutcome :=
  match campaigns with
  | [] => .skipped
  | feed_data :: _ =>
    let total_searches := feed_data.total_searches
    let monetized_searches := feed_data.monetized_searches
    let paid_clicks := feed_data.paid_clicks
    let feed_revenue := feed_data.feed_revenue
    let campaign_clicks : List ℤ := campaigns.map fun r => r.clicks
    let total_clicks : ℤ := campaign_clicks.sum
    if total_clicks = 0 then .skipped
    else
      let weights := campaign_clicks.map fun (c : ℤ) => (c : ℚ) / (total_clicks : ℚ)
      let distributed_searches := largest_remainder_method total_searches weights
      let distributed_monetized :=
        largest_remainder_method monetized_searches weights
      let distributed_paid := largest_remainder_method paid_clicks weights
      if distributed_searches.sum ≠ total_searches then
        .failed ("Searches distribution error: " ++
          toString distributed_searches.sum ++ " != " ++ toString total_searches)
      else if distributed_monetized.sum ≠ monetized_searches then
        .failed ("Monetized distribution error: " ++
          toString distributed_monetized.sum ++ " != " ++
          toString monetized_searches)
      else if distributed_paid.sum ≠ paid_clicks then
        .failed ("Paid clicks distribution error: " ++
          toString distributed_paid.sum ++ " != " ++ toString paid_clicks)
      else
        .ok (campaigns.enum.map fun p =>
          { date := key.1
            campaign_id := p.2.campaign_id
            campaign_name := p.2.campaign_name
            fp_feed_id := key.2
            traffic_source_id := p.2.traffic_source_id
            total_searches := distributed_searches.getD p.1 0
            monetized_searches := distributed_monetized.getD p.1 0
            paid_clicks := distributed_paid.getD p.1 0
            feed_revenue := campaignFeedRevenue feed_revenue (weights.getD p.1 0)
            pub_revenue :=
              pubRevenue (campaignFeedRevenue feed_revenue (weights.getD p.1 0))
            is_feed_data := true
            batch_id := batch_id })

def runGroups (feeds : List FeedRow) (clicks : List ClickRow) :
    List ((String × String) × List JoinRow) :=
  groupByKey (sortedJoin feeds clicks)

def groupOutcomes (batch_id : String)
    (groups : List ((String × String) × List JoinRow)) :
    List ((String × String) × GroupOutcome) :=
  groups.map fun g => (g.1, processGroup batch_id g.1 g.2)

/-- The `batch_insert_data` rows accumulated over all successful groups. -/
def groupRecords (batch_id : String)
    (groups : List ((String × String) × List JoinRow)) :
    List DistributionRecord :=
  ((groupOutcomes batch_id groups).filterMap fun p =>
    match p.2 with
    | .ok rs => some rs
    | _ => none).flatten

/-- The list `distribution_errors` with the per-group prefix of line 513. -/
def groupErrors (batch_id : String)
    (groups : List ((String × String) × List JoinRow)) : List String :=
  (groupOutcomes batch_id groups).filterMap fun p =>
    match p.2 with
    | .failed m => some ("Feed " ++ p.1.2 ++ " on " ++ p.1.1 ++ ": " ++ m)
    | _ => none

def runOutcomes (batch_id : String) (feeds : List FeedRow)
    (clicks : List ClickRow) : List ((String × String) × GroupOutcome) :=
  groupOutcomes batch_id (runGroups feeds clicks)

def runRecords (batch_id : String) (feeds : List FeedRow)
    (clicks : List ClickRow) : List DistributionRecord :=
  groupRecords batch_id (runGroups feeds clicks)

def runErrors (batch_id : String) (feeds : List FeedRow)
    (clicks : List ClickRow) : List String :=
  groupErrors batch_id (runGroups feeds clicks)

def sameKey (a b : DistributionRecord) : Bool :=
  a.date == b.date && a.campaign_id == b.campaign_id &&
    a.fp_feed_id == b.fp_feed_id

/-- SQL `INSERT ... ON CONFLICT (date, campaign_id, fp_feed_id) DO UPDATE`
(lines 493-508): note that `campaign_name`, `traffic_source_id` and
`is_feed_data` are not in the update list. -/
def upsertRecord (db : List DistributionRecord) (r : DistributionRecord) :
    List DistributionRecord :=
  if db.any fun x => sameKey x r then
    db.map fun x =>
      if sameKey x r then
        { x with
          total_searches := r.total_searches
          monetized_searches := r.monetized_searches
          paid_clicks := r.paid_clicks
          feed_revenue := r.feed_revenue
          pub_revenue := r.pub_revenue
          batch_id := r.batch_id }
      else x
  else db ++ [r]

/-- Result of `verify_distribution_totals` (lines 559-599).  A `SUM` over an
empty table is NULL, which makes `float(None)` raise, so either side being
empty lands in the `except` branch (`errored`). -/
inductive VerifyResult where
  | skipped
  | errored
  | checked (searches monetized clicks revenue : Bool)
deriving DecidableEq

def verify_distribution_totals (feeds : List FeedRow)
    (db : List DistributionRecord) (batch_id : String) : VerifyResult :=
  let dist := db.filter fun r => r.batch_id == batch_id
  if feeds.isEmpty || dist.isEmpty then .errored
  else
    .checked
      (decide ((feeds.map fun f => f.total_searches).sum =
        (dist.map fun r => r.total_searches).sum))
      (decide ((feeds.map fun f => f.monetized_searches).sum =
        (dist.map fun r => r.monetized_searches).sum))
      (decide ((feeds.map fun f => f.paid_clicks).sum =
        (dist.map fun r => r.paid_clicks).sum))
      (decide (|(feeds.map fun f => f.feed_revenue).sum -
        (dist.map fun r => r.feed_revenue).sum| < 1 / 100))

/-- The `"status"` field of the verification dict. -/
def verifyStatus : VerifyResult → String
  | .skipped => "skipped"
  | .errored => "error"
  | .checked a b c d => if a && b && c && d then "passed" else "failed"

/-- Observable outcome of one `distribute_revenue` call: whether a
`ProcessingError` propagated, the final `distributed_stats` table (the
transaction committed iff no error propagated), the `processing_logs`
entries written via the separately-acquired connection, and the
verification result. -/
structure RunResult where
  raised : Bool
  db : List DistributionRecord
  logs : List (String × String × String × ℕ)
  verification : VerifyResult
deriving DecidableEq

/-- The loop, logging, verification, threshold check and transaction
boundary of `distribute_revenue` (lines 395-557), parameterized by the
already-built `feed_groups` dictionary. -/
def distribute_over_groups (batch_id : String) (dry_run : Bool)
    (groups : List ((String × String) × List JoinRow))
    (feeds : List FeedRow) (db0 : List DistributionRecord) : RunResult :=
  let records := groupRecords batch_id groups
  let distribution_errors := groupErrors batch_id groups
  let records_created := records.length
  let db1 := if dry_run then db0 else db0.filter fun r => r.batch_id != batch_id
  let db2 := if dry_run then db1 else records.foldl upsertRecord db1
  let verification :=
    if dry_run then .skipped else verify_distribution_totals feeds db2 batch_id
  let status := if distribution_errors.isEmpty then "success" else "warning"
  let message :=
    if dry_run then
      "DRY RUN: Would distribute to " ++ toString records_created ++ " records"
    else
      "Distributed revenue to " ++ toString records_created ++ " records" ++
        (if distribution_errors.isEmpty then "" else
          " with " ++ toString distribution_errors.length ++ " errors")
  if ¬distribution_errors.isEmpty ∧
      (groups.length : ℚ) * (1 / 10) < (distribution_errors.length : ℚ) then
    { raised := true
      db := db0
      logs := [("revenue_distribution", status, message, records_created),
        ("revenue_distribution", "error",
          "Too many distribution errors: " ++
            toString distribution_errors.length, 0)]
      verification := verification }
  else
    { raised := false
      db := db2
      logs := [("revenue_distribution", status, message, records_created)]
      verification := verification }

/-- The method `distribute_revenue` (lines 388-557): group the joined rows, then run the
distribution over the groups. -/
def distribute_revenue (batch_id : String) (dry_run : Bool)
    (feeds : List FeedRow) (clicks : List ClickRow)
    (db0 : List DistributionRecord) : RunResult :=
  distribute_over_groups batch_id dry_run (runGroups feeds clicks) feeds db0

/-! ### C4: the monetary splitter formula and worked example -/

theorem getD_map {α β : Type} (f : α → β) (l : List α) (d : α) (d2 : β) :
    ∀ i < l.length, (l.map f).getD i d2 = f (l.getD i d) := by
  induction l with
  | nil => intro i hi; simp at hi
  | cons a t ih =>
    intro i hi
    cases i with
    | zero => simp
    | succ n => simpa using ih n (by simpa using hi)

/-- C4: each campaign's share is `round_half_up(feedRevenue * w_i, 2)` and its
publisher revenue is `round_half_up(share_i * 0.75, 2)` with the fixed ratio
`0.75`; at `feedRevenue = 100`, normalized weights `[0.6, 0.4]`, this yields
shares `[60.00, 40.00]` and publisher revenues `[45.00, 30.00]`. -/
theorem monetary_splitter_formula (feed_revenue : ℚ) (weights : List ℚ) :
    (∀ i < weights.length,
        (distributeRevenueShares feed_revenue weights).getD i (0, 0) =
          (roundHalfUp2 (feed_revenue * weights.getD i 0),
            roundHalfUp2 (roundHalfUp2 (feed_revenue * weights.getD i 0) *
              (75 / 100)))) ∧
      distributeRevenueShares 100 [(6 : ℚ) / 10, 4 / 10] =
        [(60, 45), (40, 30)] := by
  constructor
  · intro i hi
    unfold distributeRevenueShares
    rw [getD_map _ _ 0 _ i hi]
    rfl
  · norm_num [distributeRevenueShares, campaignFeedRevenue, pubRevenue,
      roundHalfUp2]

/-- C4 witness: the splitter formula applied at index 0 of the example. -/
theorem monetary_splitter_formula_witness :
    0 < ([(6 : ℚ) / 10, 4 / 10]).length ∧
      (distributeRevenueShares 100 [(6 : ℚ) / 10, 4 / 10]).getD 0 (0, 0) =
        (roundHalfUp2 (100 * ([(6 : ℚ) / 10, 4 / 10]).getD 0 0),
          roundHalfUp2 (roundHalfUp2 (100 * ([(6 : ℚ) / 10, 4 / 10]).getD 0 0) *
            (75 / 100))) :=
  ⟨by norm_num,
    (monetary_splitter_formula 100 [(6 : ℚ) / 10, 4 / 10]).1 0 (by norm_num)⟩

/-! ### C10: publisher revenue never exceeds the feed revenue share -/

theorem getD_nonneg_rat {l : List ℚ} (h : ∀ x ∈ l, 0 ≤ x) (k : ℕ) :
    0 ≤ l.getD k 0 := by
  induction l generalizing k with
  | nil => simp
  | cons a t ih =>
    cases k with
    | zero => simpa using h a (List.mem_cons_self a t)
    | succ n => simpa using ih (fun x hx => h x (List.mem_cons_of_mem a hx)) n

theorem pubRevenue_le_of_cents (k : ℤ) (hk : 0 ≤ k) :
    pubRevenue ((k : ℚ) / 100) ≤ (k : ℚ) / 100 := by
  have hk' : (0 : ℚ) ≤ (k : ℚ) := by exact_mod_cast hk
  have harg : (0 : ℚ) ≤ (k : ℚ) / 100 * (75 / 100) := by positivity
  unfold pubRevenue roundHalfUp2
  rw [if_pos harg]
  have hlt : (k : ℚ) / 100 * (75 / 100) * 100 + 1 / 2 < ((k + 1 : ℤ) : ℚ) := by
    push_cast
    ring_nf
    linarith
  have hfl : ⌊(k : ℚ) / 100 * (75 / 100) * 100 + 1 / 2⌋ ≤ k := by
    have := Int.floor_lt.mpr hlt
    omega
  have hfl' : ((⌊(k : ℚ) / 100 * (75 / 100) * 100 + 1 / 2⌋ : ℤ) : ℚ) ≤ (k : ℚ) := by
    exact_mod_cast hfl
  linarith

theorem pubRevenue_le_roundHalfUp2 {x : ℚ} (hx : 0 ≤ x) :
    pubRevenue (roundHalfUp2 x) ≤ roundHalfUp2 x := by
  have h0 : (0 : ℤ) ≤ ⌊x * 100 + 1 / 2⌋ :=
    Int.le_floor.mpr (by push_cast; linarith)
  have hrw : roundHalfUp2 x = ((⌊x * 100 + 1 / 2⌋ : ℤ) : ℚ) / 100 := by
    unfold roundHalfUp2
    rw [if_pos hx]
  rw [hrw]
  exact pubRevenue_le_of_cents _ h0

/-- C10: `round_half_up(s * 0.75, 2) ≤ s` for every non-negative two-decimal
amount `s = k/100`, and consequently every DistributionRecord produced by a
successful group (with the non-negative clicks and revenue the importer
guarantees) has `pub_revenue ≤ feed_revenue` (the record's share field). -/
theorem pub_revenue_never_exceeds_share (batch_id : String)
    (key : String × String) (campaigns : List JoinRow)
    (recs : List DistributionRecord)
    (hclicks : ∀ c ∈ campaigns, 0 ≤ c.clicks)
    (hrev : ∀ c ∈ campaigns, 0 ≤ c.feed_revenue)
    (hok : processGroup batch_id key campaigns = .ok recs) :
    (∀ k : ℤ, 0 ≤ k → pubRevenue ((k : ℚ) / 100) ≤ (k : ℚ) / 100) ∧
      ∀ r ∈ recs, r.pub_revenue ≤ r.feed_revenue := by
  refine ⟨pubRevenue_le_of_cents, ?_⟩
  cases campaigns with
  | nil => simp [processGroup] at hok
  | cons fd rest =>
    simp only [processGroup] at hok
    split at hok
    · exact absurd hok (by simp)
    · split at hok
      · exact absurd hok (by simp)
      · split at hok
        · exact absurd hok (by simp)
        · split at hok
          · exact absurd hok (by simp)
          · rename_i htc _ _ _
            have hrecs := (GroupOutcome.ok.injEq _ _).mp hok
            subst hrecs
            intro r hr
            obtain ⟨p, hp, rfl⟩ := List.mem_map.mp hr
            have hsum_nonneg : (0 : ℤ) ≤
                ((fd :: rest).map fun r => r.clicks).sum :=
              List.sum_nonneg (by
                intro x hx
                obtain ⟨c, hc, rfl⟩ := List.mem_map.mp hx
                exact hclicks c hc)
            have htc_pos : (0 : ℤ) <
                ((fd :: rest).map fun r => r.clicks).sum :=
              lt_of_le_of_ne hsum_nonneg (Ne.symm htc)
            have hw_nonneg : ∀ w ∈ ((fd :: rest).map fun r => r.clicks).map
                (fun (c : ℤ) => (c : ℚ) /
                  ((((fd :: rest).map fun r => r.clicks).sum : ℤ) : ℚ)),
                0 ≤ w := by
              intro w hw
              obtain ⟨c, hc, rfl⟩ := List.mem_map.mp hw
              obtain ⟨cr, hcr, rfl⟩ := List.mem_map.mp hc
              have h1 : (0 : ℚ) ≤ (cr.clicks : ℚ) := by
                exact_mod_cast hclicks cr hcr
              have h2 : (0 : ℚ) <
                  ((((fd :: rest).map fun r => r.clicks).sum : ℤ) : ℚ) := by
                exact_mod_cast htc_pos
              exact div_nonneg h1 h2.le
            have hgetd : 0 ≤ (((fd :: rest).map fun r => r.clicks).map
                (fun (c : ℤ) => (c : ℚ) /
                  ((((fd :: rest).map fun r => r.clicks).sum : ℤ) : ℚ))).getD p.1 0 :=
              getD_nonneg_rat hw_nonneg p.1
            have hfr : 0 ≤ fd.feed_revenue :=
              hrev fd (List.mem_cons_self fd rest)
            exact pubRevenue_le_roundHalfUp2 (mul_nonneg hfr hgetd)

/-- C10 witness: a one-campaign group with one click and revenue 1.00; the
produced record has share 1.00 and publisher revenue 0.75. -/
theorem pub_revenue_never_exceeds_share_witness :
    (∀ c ∈ [(⟨"d", "F", 0, 0, 0, 1, 1, "c", 7, 1⟩ : JoinRow)], 0 ≤ c.clicks) ∧
      (∀ c ∈ [(⟨"d", "F", 0, 0, 0, 1, 1, "c", 7, 1⟩ : JoinRow)],
        0 ≤ c.feed_revenue) ∧
      processGroup "b" ("d", "F") [⟨"d", "F", 0, 0, 0, 1, 1, "c", 7, 1⟩] =
        .ok [⟨"d", 1, "c", "F", 7, 0, 0, 0, 1, 75 / 100, true, "b"⟩] ∧
      (∀ k : ℤ, 0 ≤ k → pubRevenue ((k : ℚ) / 100) ≤ (k : ℚ) / 100) ∧
      ∀ r ∈ [(⟨"d", 1, "c", "F", 7, 0, 0, 0, 1, 75 / 100, true,
        "b"⟩ : DistributionRecord)], r.pub_revenue ≤ r.feed_revenue := by
  have h1 : ∀ c ∈ [(⟨"d", "F", 0, 0, 0, 1, 1, "c", 7, 1⟩ : JoinRow)],
      0 ≤ c.clicks := by norm_num
  have h2 : ∀ c ∈ [(⟨"d", "F", 0, 0, 0, 1, 1, "c", 7, 1⟩ : JoinRow)],
      0 ≤ c.feed_revenue := by norm_num
  have h3 : processGroup "b" ("d", "F") [⟨"d", "F", 0, 0, 0, 1, 1, "c", 7, 1⟩] =
      .ok [⟨"d", 1, "c", "F", 7, 0, 0, 0, 1, 75 / 100, true, "b"⟩] := by
    norm_num [processGroup, largest_remainder_method, lrmRemainder,
      lrmDistributed, lrmNormalized, pyTrunc, campaignFeedRevenue, pubRevenue,
      roundHalfUp2, List.enum, List.enumFrom]
  exact ⟨h1, h2, h3,
    (pub_revenue_never_exceeds_share "b" ("d", "F") _ _ h1 h2 h3).1,
    (pub_revenue_never_exceeds_share "b" ("d", "F") _ _ h1 h2 h3).2⟩

/-! ### C5: the distribution transformation is batch-id independent -/

/-- Forget the provenance stamp of a record. -/
def eraseBatch (r : DistributionRecord) : DistributionRecord :=
  { r with batch_id := "" }

def eraseOutcome : GroupOutcome → GroupOutcome
  | .ok rs => .ok (rs.map eraseBatch)
  | o => o

theorem eraseOutcome_processGroup (b1 b2 : String) (key : String × String)
    (campaigns : List JoinRow) :
    eraseOutcome (processGroup b1 key campaigns) =
      eraseOutcome (processGroup b2 key campaigns) := by
  cases campaigns with
  | nil => rfl
  | cons fd rest =>
    simp only [processGroup]
    split
    · rfl
    · split
      · rfl
      · split
        · rfl
        · split
          · rfl
          · simp only [eraseOutcome, List.map_map]
            rfl

theorem processGroup_ok_batch (b : String) (key : String × String)
    (campaigns : List JoinRow) (recs : List DistributionRecord)
    (h : processGroup b key campaigns = .ok recs) :
    ∀ r ∈ recs, r.batch_id = b := by
  cases campaigns with
  | nil => simp [processGroup] at h
  | cons fd rest =>
    simp only [processGroup] at h
    split at h
    · exact absurd h (by simp)
    · split at h
      · exact absurd h (by simp)
      · split at h
        · exact absurd h (by simp)
        · split at h
          · exact absurd h (by simp)
          · have hrecs := (GroupOutcome.ok.injEq _ _).mp h
            subst hrecs
            intro r hr
            obtain ⟨p, _, rfl⟩ := List.mem_map.mp hr
            rfl

theorem runRecords_batch (b : String) (feeds : List FeedRow)
    (clicks : List ClickRow) :
    ∀ r ∈ runRecords b feeds clicks, r.batch_id = b := by
  intro r hr
  unfold runRecords groupRecords groupOutcomes at hr
  rw [List.mem_flatten] at hr
  obtain ⟨rs, hrs, hrmem⟩ := hr
  rw [List.mem_filterMap] at hrs
  obtain ⟨p, hp, hmatch⟩ := hrs
  obtain ⟨g, -, rfl⟩ := List.mem_map.mp hp
  cases hpg : processGroup b g.1 g.2 with
  | ok rs2 =>
    rw [hpg] at hmatch
    simp at hmatch
    rw [hmatch] at hpg
    exact processGroup_ok_batch b g.1 g.2 rs hpg r hrmem
  | skipped => rw [hpg] at hmatch; simp at hmatch
  | failed m => rw [hpg] at hmatch; simp at hmatch

/-- C5: two runs over identical FeedMetric/ClickShare inputs that differ only
in batch_id produce record lists that agree in every field except batch_id,
whose batch_id fields carry the respective run's id. -/
theorem distribution_batch_id_independent (b1 b2 : String)
    (feeds : List FeedRow) (clicks : List ClickRow) :
    (runRecords b1 feeds clicks).map eraseBatch =
        (runRecords b2 feeds clicks).map eraseBatch ∧
      (∀ r ∈ runRecords b1 feeds clicks, r.batch_id = b1) ∧
      (∀ r ∈ runRecords b2 feeds clicks, r.batch_id = b2) := by
  refine ⟨?_, runRecords_batch b1 feeds clicks, runRecords_batch b2 feeds clicks⟩
  unfold runRecords groupRecords groupOutcomes
  induction runGroups feeds clicks with
  | nil => rfl
  | cons g gs ih =>
    simp only [List.map_cons, List.filterMap_cons]
    have he := eraseOutcome_processGroup b1 b2 g.1 g.2
    cases h1 : processGroup b1 g.1 g.2 <;> cases h2 : processGroup b2 g.1 g.2 <;>
      rw [h1, h2] at he <;> simp only [eraseOutcome] at he
    · simpa using ih
    · exact absurd he (by simp)
    · simpa using ih
    · exact absurd he (by simp)
    · have he' := (GroupOutcome.ok.injEq _ _).mp he
      dsimp only
      rw [List.flatten_cons, List.flatten_cons, List.map_append,
        List.map_append, he', ih]
    · exact absurd he (by simp)
    · simpa using ih
    · exact absurd he (by simp)
    · simpa using ih

/-! ### C8: zero-click groups and orphaned feeds -/

theorem zero_click_group_skipped (b : String) (key : String × String)
    (campaigns : List JoinRow)
    (h : (campaigns.map fun r => r.clicks).sum = 0) :
    processGroup b key campaigns = .skipped := by
  cases campaigns with
  | nil => rfl
  | cons fd rest =>
    simp only [processGroup]
    rw [if_pos h]

/-- A feed with no positive-click campaign contributes no join row, hence no
group, no records, no errors, and an unchanged run outcome apart from the
verification sums. -/
theorem orphan_feed_no_trace (b : String) (f : FeedRow) (feeds : List FeedRow)
    (clicks : List ClickRow) (db0 : List DistributionRecord)
    (h : ∀ c ∈ clicks,
      ¬(c.fp_feed_id = f.fp_feed_id ∧ c.date = f.date ∧ 0 < c.clicks)) :
    joinPositiveClicks (f :: feeds) clicks = joinPositiveClicks feeds clicks ∧
      runRecords b (f :: feeds) clicks = runRecords b feeds clicks ∧
      runErrors b (f :: feeds) clicks = runErrors b feeds clicks ∧
      (distribute_revenue b false (f :: feeds) clicks db0).logs =
        (distribute_revenue b false feeds clicks db0).logs ∧
      (distribute_revenue b false (f :: feeds) clicks db0).raised =
        (distribute_revenue b false feeds clicks db0).raised ∧
      (distribute_revenue b false (f :: feeds) clicks db0).db =
        (distribute_revenue b false feeds clicks db0).db := by
  have hfilter : clicks.filter (fun c =>
      c.fp_feed_id == f.fp_feed_id && c.date == f.date &&
        decide (0 < c.clicks)) = [] := by
    rw [List.filter_eq_nil_iff]
    intro c hc
    have hnc := h c hc
    simp only [Bool.and_eq_true, beq_iff_eq, decide_eq_true_eq]
    intro hcon
    exact hnc ⟨hcon.1.1, hcon.1.2, hcon.2⟩
  have hjoin : joinPositiveClicks (f :: feeds) clicks =
      joinPositiveClicks feeds clicks := by
    unfold joinPositiveClicks
    rw [List.flatMap_cons, hfilter]
    simp
  have hg : runGroups (f :: feeds) clicks = runGroups feeds clicks := by
    unfold runGroups sortedJoin
    rw [hjoin]
  refine ⟨hjoin, ?_, ?_, ?_, ?_, ?_⟩
  · unfold runRecords
    rw [hg]
  · unfold runErrors
    rw [hg]
  · unfold distribute_revenue distribute_over_groups
    rw [hg]
    dsimp only
    split <;> rfl
  · unfold distribute_revenue distribute_over_groups
    rw [hg]
    dsimp only
    split <;> rfl
  · unfold distribute_revenue distribute_over_groups
    rw [hg]
    dsimp only
    split <;> rfl

/-- C8 (amended): a FeedGroup with zero total clicks produces no records and
no error (it is skipped), and a FeedMetric with no positive-click campaign
contributes no group, record or error; but nothing about such orphans is
reported — the run's records, errors and log entries are those of a run
without the orphan. -/
theorem orphaned_groups_excluded (b : String) (key : String × String)
    (campaigns : List JoinRow) (f : FeedRow) (feeds : List FeedRow)
    (clicks : List ClickRow) (db0 : List DistributionRecord)
    (hzero : (campaigns.map fun r => r.clicks).sum = 0)
    (horph : ∀ c ∈ clicks,
      ¬(c.fp_feed_id = f.fp_feed_id ∧ c.date = f.date ∧ 0 < c.clicks)) :
    processGroup b key campaigns = .skipped ∧
      joinPositiveClicks (f :: feeds) clicks = joinPositiveClicks feeds clicks ∧
      runRecords b (f :: feeds) clicks = runRecords b feeds clicks ∧
      runErrors b (f :: feeds) clicks = runErrors b feeds clicks ∧
      (distribute_revenue b false (f :: feeds) clicks db0).logs =
        (distribute_revenue b false feeds clicks db0).logs :=
  ⟨zero_click_group_skipped b key campaigns hzero,
    (orphan_feed_no_trace b f feeds clicks db0 horph).1,
    (orphan_feed_no_trace b f feeds clicks db0 horph).2.1,
    (orphan_feed_no_trace b f feeds clicks db0 horph).2.2.1,
    (orphan_feed_no_trace b f feeds clicks db0 horph).2.2.2.1⟩

/-- C8 counterexample: with feed `F2` (revenue 5.00, 7 searches) orphaned —
no positive-click campaign references it — the run's records, errors and log
entries are identical to those of the run without `F2`, so no orphan count or
orphan revenue is reported anywhere. -/
theorem orphan_not_reported_cex :
    joinPositiveClicks [(⟨"2025-01-15", "F2", 7, 3, 1, 5⟩ : FeedRow)]
        [⟨"2025-01-15", 1, "camp", "F1", 66, 5⟩] = [] ∧
      runRecords "b1"
          [⟨"2025-01-15", "F2", 7, 3, 1, 5⟩, ⟨"2025-01-15", "F1", 10, 5, 2, 10⟩]
          [⟨"2025-01-15", 1, "camp", "F1", 66, 5⟩] =
        runRecords "b1" [⟨"2025-01-15", "F1", 10, 5, 2, 10⟩]
          [⟨"2025-01-15", 1, "camp", "F1", 66, 5⟩] ∧
      runErrors "b1"
          [⟨"2025-01-15", "F2", 7, 3, 1, 5⟩, ⟨"2025-01-15", "F1", 10, 5, 2, 10⟩]
          [⟨"2025-01-15", 1, "camp", "F1", 66, 5⟩] =
        runErrors "b1" [⟨"2025-01-15", "F1", 10, 5, 2, 10⟩]
          [⟨"2025-01-15", 1, "camp", "F1", 66, 5⟩] ∧
      (distribute_revenue "b1" false
          [⟨"2025-01-15", "F2", 7, 3, 1, 5⟩, ⟨"2025-01-15", "F1", 10, 5, 2, 10⟩]
          [⟨"2025-01-15", 1, "camp", "F1", 66, 5⟩] []).logs =
        (distribute_revenue "b1" false [⟨"2025-01-15", "F1", 10, 5, 2, 10⟩]
          [⟨"2025-01-15", 1, "camp", "F1", 66, 5⟩] []).logs := by
  have horph : ∀ c ∈ [(⟨"2025-01-15", 1, "camp", "F1", 66, 5⟩ : ClickRow)],
      ¬(c.fp_feed_id = "F2" ∧ c.date = "2025-01-15" ∧ 0 < c.clicks) := by
    decide
  have hres := orphan_feed_no_trace "b1" ⟨"2025-01-15", "F2", 7, 3, 1, 5⟩
    [⟨"2025-01-15", "F1", 10, 5, 2, 10⟩]
    [⟨"2025-01-15", 1, "camp", "F1", 66, 5⟩] [] horph
  refine ⟨?_, hres.2.1, hres.2.2.1, hres.2.2.2.1⟩
  unfold joinPositiveClicks
  simp only [List.flatMap_cons, List.flatMap_nil]
  have : ([(⟨"2025-01-15", 1, "camp", "F1", 66, 5⟩ : ClickRow)]).filter
      (fun c => c.fp_feed_id == "F2" && c.date == "2025-01-15" &&
        decide (0 < c.clicks)) = [] := by decide
  rw [this]
  simp

/-- C8 witness: a group whose only campaign has zero clicks is skipped, and
the orphaned-feed scenario of the counterexample leaves no trace. -/
theorem orphaned_groups_excluded_witness :
    (([(⟨"d", "F", 1, 1, 1, 1, 1, "c", 7, 0⟩ : JoinRow)]).map
        (fun r => r.clicks)).sum = 0 ∧
      (∀ c ∈ [(⟨"2025-01-15", 1, "camp", "F1", 66, 5⟩ : ClickRow)],
        ¬(c.fp_feed_id = "F2" ∧ c.date = "2025-01-15" ∧ 0 < c.clicks)) ∧
      processGroup "b1" ("d", "F") [⟨"d", "F", 1, 1, 1, 1, 1, "c", 7, 0⟩] =
        .skipped ∧
      runRecords "b1"
          [⟨"2025-01-15", "F2", 7, 3, 1, 5⟩, ⟨"2025-01-15", "F1", 10, 5, 2, 10⟩]
          [⟨"2025-01-15", 1, "camp", "F1", 66, 5⟩] =
        runRecords "b1" [⟨"2025-01-15", "F1", 10, 5, 2, 10⟩]
          [⟨"2025-01-15", 1, "camp", "F1", 66, 5⟩] := by
  have h1 : (([(⟨"d", "F", 1, 1, 1, 1, 1, "c", 7, 0⟩ : JoinRow)]).map
      (fun r => r.clicks)).sum = 0 := by decide
  have h2 : ∀ c ∈ [(⟨"2025-01-15", 1, "camp", "F1", 66, 5⟩ : ClickRow)],
      ¬(c.fp_feed_id = "F2" ∧ c.date = "2025-01-15" ∧ 0 < c.clicks) := by
    decide
  have happ := orphaned_groups_excluded "b1" ("d", "F")
    [⟨"d", "F", 1, 1, 1, 1, 1, "c", 7, 0⟩] ⟨"2025-01-15", "F2", 7, 3, 1, 5⟩
    [⟨"2025-01-15", "F1", 10, 5, 2, 10⟩]
    [⟨"2025-01-15", 1, "camp", "F1", 66, 5⟩] [] h1 h2
  exact ⟨h1, h2, happ.1, happ.2.2.1⟩

/-! ### C6: per-group failures are skipped, the 10% threshold aborts -/

/-- C6: on a fresh batch id, a run whose failed-group count does not exceed
10% of the groups commits the surviving groups' records and logs a single
entry (warning when some group failed, success otherwise), while a run whose
failed-group count exceeds 10% raises, rolls the table back to its prior
state — leaving no record for that batch id — and logs the warning entry
followed by an error entry with zero records. -/
theorem distribution_failure_policy (b : String)
    (groups : List ((String × String) × List JoinRow))
    (feeds : List FeedRow) (db0 : List DistributionRecord)
    (hdb : ∀ r ∈ db0, r.batch_id ≠ b) :
    (¬(¬(groupErrors b groups).isEmpty ∧
        (groups.length : ℚ) * (1 / 10) < ((groupErrors b groups).length : ℚ)) →
      (distribute_over_groups b false groups feeds db0).raised = false ∧
        (distribute_over_groups b false groups feeds db0).db =
          (groupRecords b groups).foldl upsertRecord
            (db0.filter fun r => r.batch_id != b) ∧
        (distribute_over_groups b false groups feeds db0).logs =
          [("revenue_distribution",
            if (groupErrors b groups).isEmpty then "success" else "warning",
            "Distributed revenue to " ++
                toString (groupRecords b groups).length ++ " records" ++
              (if (groupErrors b groups).isEmpty then "" else
                " with " ++ toString (groupErrors b groups).length ++ " errors"),
            (groupRecords b groups).length)]) ∧
    ((¬(groupErrors b groups).isEmpty ∧
        (groups.length : ℚ) * (1 / 10) < ((groupErrors b groups).length : ℚ)) →
      (distribute_over_groups b false groups feeds db0).raised = true ∧
        (distribute_over_groups b false groups feeds db0).db = db0 ∧
        (∀ r ∈ (distribute_over_groups b false groups feeds db0).db,
          r.batch_id ≠ b) ∧
        (distribute_over_groups b false groups feeds db0).logs =
          [("revenue_distribution", "warning",
            "Distributed revenue to " ++
                toString (groupRecords b groups).length ++ " records" ++
              (" with " ++ toString (groupErrors b groups).length ++ " errors"),
            (groupRecords b groups).length),
          ("revenue_distribution", "error",
            "Too many distribution errors: " ++
              toString (groupErrors b groups).length, 0)]) := by
  constructor
  · intro hcond
    unfold distribute_over_groups
    dsimp only
    rw [if_neg hcond]
    refine ⟨rfl, by simp, by simp⟩
  · intro hcond
    unfold distribute_over_groups
    dsimp only
    rw [if_pos hcond]
    refine ⟨rfl, rfl, hdb, ?_⟩
    have hne : (groupErrors b groups).isEmpty = false := by
      rcases hcond with ⟨h1, -⟩
      simpa using h1
    rw [hne]
    simp

/-- C6 witness: a single group whose campaign clicks `[4, -1, -1]` make the
allocator's postcondition fail (the method returns `[2, 0, 0]` for total 1),
so 100% > 10% of groups fail; the run raises and the table stays empty. -/
theorem distribution_failure_policy_witness :
    (∀ r ∈ ([] : List DistributionRecord), r.batch_id ≠ "b") ∧
      (¬(groupErrors "b" [(("d", "F"),
          [⟨"d", "F", 1, 0, 0, 0, 1, "c1", 7, 4⟩,
           ⟨"d", "F", 1, 0, 0, 0, 2, "c2", 7, -1⟩,
           ⟨"d", "F", 1, 0, 0, 0, 3, "c3", 7, -1⟩])]).isEmpty ∧
        (([(("d", "F"),
          [(⟨"d", "F", 1, 0, 0, 0, 1, "c1", 7, 4⟩ : JoinRow),
           ⟨"d", "F", 1, 0, 0, 0, 2, "c2", 7, -1⟩,
           ⟨"d", "F", 1, 0, 0, 0, 3, "c3", 7, -1⟩])]).length : ℚ) * (1 / 10) <
          ((groupErrors "b" [(("d", "F"),
            [⟨"d", "F", 1, 0, 0, 0, 1, "c1", 7, 4⟩,
             ⟨"d", "F", 1, 0, 0, 0, 2, "c2", 7, -1⟩,
             ⟨"d", "F", 1, 0, 0, 0, 3, "c3", 7, -1⟩])]).length : ℚ)) ∧
      (distribute_over_groups "b" false [(("d", "F"),
          [⟨"d", "F", 1, 0, 0, 0, 1, "c1", 7, 4⟩,
           ⟨"d", "F", 1, 0, 0, 0, 2, "c2", 7, -1⟩,
           ⟨"d", "F", 1, 0, 0, 0, 3, "c3", 7, -1⟩])] [] []).raised = true ∧
      (distribute_over_groups "b" false [(("d", "F"),
          [⟨"d", "F", 1, 0, 0, 0, 1, "c1", 7, 4⟩,
           ⟨"d", "F", 1, 0, 0, 0, 2, "c2", 7, -1⟩,
           ⟨"d", "F", 1, 0, 0, 0, 3, "c3", 7, -1⟩])] [] []).db = [] ∧
      ∀ r ∈ (distribute_over_groups "b" false [(("d", "F"),
          [⟨"d", "F", 1, 0, 0, 0, 1, "c1", 7, 4⟩,
           ⟨"d", "F", 1, 0, 0, 0, 2, "c2", 7, -1⟩,
           ⟨"d", "F", 1, 0, 0, 0, 3, "c3", 7, -1⟩])] [] []).db,
        r.batch_id ≠ "b" := by
  have hdb : ∀ r ∈ ([] : List DistributionRecord), r.batch_id ≠ "b" := by simp
  have hfail : ∃ m, processGroup "b" ("d", "F")
      [⟨"d", "F", 1, 0, 0, 0, 1, "c1", 7, 4⟩,
       ⟨"d", "F", 1, 0, 0, 0, 2, "c2", 7, -1⟩,
       ⟨"d", "F", 1, 0, 0, 0, 3, "c3", 7, -1⟩] = GroupOutcome.failed m := by
    have hceil : (⌈(-(1 / 2) : ℚ)⌉ : ℤ) = 0 := by norm_num
    have hne : (([2, -(1 / 2), -(1 / 2)] : List ℚ) = []) = False :=
      eq_false (List.cons_ne_nil _ _)
    norm_num [processGroup, largest_remainder_method, lrmRemainder,
      lrmDistributed, lrmNormalized, pyTrunc, hceil, hne]
  obtain ⟨m, hm⟩ := hfail
  have herr : groupErrors "b" [(("d", "F"),
      [⟨"d", "F", 1, 0, 0, 0, 1, "c1", 7, 4⟩,
       ⟨"d", "F", 1, 0, 0, 0, 2, "c2", 7, -1⟩,
       ⟨"d", "F", 1, 0, 0, 0, 3, "c3", 7, -1⟩])] =
      ["Feed " ++ "F" ++ " on " ++ "d" ++ ": " ++ m] := by
    simp [groupErrors, groupOutcomes, hm]
  have hant : ¬(groupErrors "b" [(("d", "F"),
      [(⟨"d", "F", 1, 0, 0, 0, 1, "c1", 7, 4⟩ : JoinRow),
       ⟨"d", "F", 1, 0, 0, 0, 2, "c2", 7, -1⟩,
       ⟨"d", "F", 1, 0, 0, 0, 3, "c3", 7, -1⟩])]).isEmpty ∧
      (([(("d", "F"),
        [(⟨"d", "F", 1, 0, 0, 0, 1, "c1", 7, 4⟩ : JoinRow),
         ⟨"d", "F", 1, 0, 0, 0, 2, "c2", 7, -1⟩,
         ⟨"d", "F", 1, 0, 0, 0, 3, "c3", 7, -1⟩])]).length : ℚ) * (1 / 10) <
        ((groupErrors "b" [(("d", "F"),
          [⟨"d", "F", 1, 0, 0, 0, 1, "c1", 7, 4⟩,
           ⟨"d", "F", 1, 0, 0, 0, 2, "c2", 7, -1⟩,
           ⟨"d", "F", 1, 0, 0, 0, 3, "c3", 7, -1⟩])]).length : ℚ) := by
    rw [herr]
    constructor
    · simp
    · norm_num
  have happ := (distribution_failure_policy "b" [(("d", "F"),
      [⟨"d", "F", 1, 0, 0, 0, 1, "c1", 7, 4⟩,
       ⟨"d", "F", 1, 0, 0, 0, 2, "c2", 7, -1⟩,
       ⟨"d", "F", 1, 0, 0, 0, 3, "c3", 7, -1⟩])] [] [] hdb).2 hant
  exact ⟨hdb, hant, happ.1, happ.2.1, happ.2.2.1⟩

/-! ### C7: verification compares sums but never changes the logged status -/

/-- C7 (amended): the Verifying phase compares the aggregate sums of the
source feed table with the records written for this batch (integer sums
exactly, revenue within 0.01, per `verify_distribution_totals`), but its
outcome does not feed into the run's logged status: a run without group
errors logs `success` and keeps its committed records whatever the
verification result is. -/
theorem verification_mismatch_no_downgrade (b : String) (feeds : List FeedRow)
    (clicks : List ClickRow) (db0 : List DistributionRecord)
    (hnoerr : runErrors b feeds clicks = []) :
    (distribute_revenue b false feeds clicks db0).raised = false ∧
      (distribute_revenue b false feeds clicks db0).logs =
        [("revenue_distribution", "success",
          "Distributed revenue to " ++
            toString (runRecords b feeds clicks).length ++ " records",
          (runRecords b feeds clicks).length)] ∧
      (distribute_revenue b false feeds clicks db0).db =
        (runRecords b feeds clicks).foldl upsertRecord
          (db0.filter fun r => r.batch_id != b) ∧
      (distribute_revenue b false feeds clicks db0).verification =
        verify_distribution_totals feeds
          ((runRecords b feeds clicks).foldl upsertRecord
            (db0.filter fun r => r.batch_id != b)) b := by
  unfold runErrors at hnoerr
  unfold distribute_revenue distribute_over_groups runRecords
  dsimp only
  rw [hnoerr]
  rw [if_neg (by simp)]
  refine ⟨rfl, ?_, by simp, by simp⟩
  simp [String.append_empty]

/-- C7 counterexample: feed `F2` has no campaigns, so the batch's records miss
its totals and every aggregate comparison fails, yet the run logs `success`
(not `warning`) and does not raise. -/
theorem verification_failed_but_logged_success :
    verifyStatus ((distribute_revenue "b1" false
        [⟨"2025-01-15", "F1", 10, 5, 2, 10⟩, ⟨"2025-01-15", "F2", 7, 3, 1, 5⟩]
        [⟨"2025-01-15", 1, "camp", "F1", 66, 5⟩] []).verification) =
      "failed" ∧
      (distribute_revenue "b1" false
        [⟨"2025-01-15", "F1", 10, 5, 2, 10⟩, ⟨"2025-01-15", "F2", 7, 3, 1, 5⟩]
        [⟨"2025-01-15", 1, "camp", "F1", 66, 5⟩] []).logs =
        [("revenue_distribution", "success",
          "Distributed revenue to 1 records", 1)] ∧
      (distribute_revenue "b1" false
        [⟨"2025-01-15", "F1", 10, 5, 2, 10⟩, ⟨"2025-01-15", "F2", 7, 3, 1, 5⟩]
        [⟨"2025-01-15", 1, "camp", "F1", 66, 5⟩] []).raised = false := by
  have h2 : runGroups
      [⟨"2025-01-15", "F1", 10, 5, 2, 10⟩, ⟨"2025-01-15", "F2", 7, 3, 1, 5⟩]
      [⟨"2025-01-15", 1, "camp", "F1", 66, 5⟩] =
      [(("2025-01-15", "F1"),
        [⟨"2025-01-15", "F1", 10, 5, 2, 10, 1, "camp", 66, 5⟩])] := by
    decide
  have h3 : processGroup "b1" ("2025-01-15", "F1")
      [⟨"2025-01-15", "F1", 10, 5, 2, 10, 1, "camp", 66, 5⟩] =
      .ok [⟨"2025-01-15", 1, "camp", "F1", 66, 10, 5, 2, 10, 15 / 2, true,
        "b1"⟩] := by
    norm_num [processGroup, largest_remainder_method, lrmRemainder,
      lrmDistributed, lrmNormalized, pyTrunc, campaignFeedRevenue, pubRevenue,
      roundHalfUp2, List.enum, List.enumFrom]
  have hgr : groupRecords "b1" [(("2025-01-15", "F1"),
      [⟨"2025-01-15", "F1", 10, 5, 2, 10, 1, "camp", 66, 5⟩])] =
      [⟨"2025-01-15", 1, "camp", "F1", 66, 10, 5, 2, 10, 15 / 2, true,
        "b1"⟩] := by
    simp [groupRecords, groupOutcomes, h3]
  have hge : groupErrors "b1" [(("2025-01-15", "F1"),
      [⟨"2025-01-15", "F1", 10, 5, 2, 10, 1, "camp", 66, 5⟩])] = [] := by
    simp [groupErrors, groupOutcomes, h3]
  have hver : verify_distribution_totals
      [⟨"2025-01-15", "F1", 10, 5, 2, 10⟩, ⟨"2025-01-15", "F2", 7, 3, 1, 5⟩]
      [⟨"2025-01-15", 1, "camp", "F1", 66, 10, 5, 2, 10, 15 / 2, true, "b1"⟩]
      "b1" = .checked false false false false := by
    norm_num [verify_distribution_totals]
  have hrun : distribute_revenue "b1" false
      [⟨"2025-01-15", "F1", 10, 5, 2, 10⟩, ⟨"2025-01-15", "F2", 7, 3, 1, 5⟩]
      [⟨"2025-01-15", 1, "camp", "F1", 66, 5⟩] [] =
      { raised := false
        db := [⟨"2025-01-15", 1, "camp", "F1", 66, 10, 5, 2, 10, 15 / 2, true,
          "b1"⟩]
        logs := [("revenue_distribution", "success",
          "Distributed revenue to 1 records", 1)]
        verification := .checked false false false false } := by
    unfold distribute_revenue distribute_over_groups
    rw [h2]
    dsimp only
    rw [hgr, hge]
    rw [if_neg (by simp)]
    simp only [upsertRecord, sameKey, List.filter_nil, List.foldl_cons,
      List.foldl_nil, List.any_nil, Bool.false_eq_true, if_false,
      List.nil_append, List.isEmpty_nil, if_true, List.length_cons,
      List.length_nil]
    rw [hver]
    simp only [RunResult.mk.injEq, and_true, true_and]
    decide
  exact ⟨by rw [hrun]; rfl, by rw [hrun], by rw [hrun]⟩

/-- C7 witness: a clean one-feed run has no group errors; the no-downgrade
theorem applies and the run does not raise. -/
theorem verification_mismatch_no_downgrade_witness :
    runErrors "b1" [⟨"2025-01-15", "F1", 10, 5, 2, 10⟩]
        [⟨"2025-01-15", 1, "camp", "F1", 66, 5⟩] = [] ∧
      (distribute_revenue "b1" false [⟨"2025-01-15", "F1", 10, 5, 2, 10⟩]
        [⟨"2025-01-15", 1, "camp", "F1", 66, 5⟩] []).raised = false := by
  have h2 : runGroups [⟨"2025-01-15", "F1", 10, 5, 2, 10⟩]
      [⟨"2025-01-15", 1, "camp", "F1", 66, 5⟩] =
      [(("2025-01-15", "F1"),
        [⟨"2025-01-15", "F1", 10, 5, 2, 10, 1, "camp", 66, 5⟩])] := by
    decide
  have h3 : processGroup "b1" ("2025-01-15", "F1")
      [⟨"2025-01-15", "F1", 10, 5, 2, 10, 1, "camp", 66, 5⟩] =
      .ok [⟨"2025-01-15", 1, "camp", "F1", 66, 10, 5, 2, 10, 15 / 2, true,
        "b1"⟩] := by
    norm_num [processGroup, largest_remainder_method, lrmRemainder,
      lrmDistributed, lrmNormalized, pyTrunc, campaignFeedRevenue, pubRevenue,
      roundHalfUp2, List.enum, List.enumFrom]
  have hnoerr : runErrors "b1" [⟨"2025-01-15", "F1", 10, 5, 2, 10⟩]
      [⟨"2025-01-15", 1, "camp", "F1", 66, 5⟩] = [] := by
    unfold runErrors
    rw [h2]
    simp [groupErrors, groupOutcomes, h3]
  exact ⟨hnoerr, (verification_mismatch_no_downgrade "b1"
    [⟨"2025-01-15", "F1", 10, 5, 2, 10⟩]
    [⟨"2025-01-15", 1, "camp", "F1", 66, 5⟩] [] hnoerr).1⟩

/-! ### C9: the idempotency guard and the import log message -/

/-- Does `pat` match at the head of `msg`? -/
def begMatch : List Char → List Char → Bool
  | [], _ => true
  | _ :: _, [] => false
  | p :: ps, m :: ms => p == m && begMatch ps ms

/-- The suffix of `msg` after the first occurrence of `pat`, if any: one
`%`-separated step of a SQL LIKE pattern. -/
def afterSeg (pat : List Char) : List Char → Option (List Char)
  | [] => if pat.isEmpty then some [] else none
  | m :: ms =>
    if begMatch pat (m :: ms) then some ((m :: ms).drop pat.length)
    else afterSeg pat ms

/-- SQL `msg LIKE '%' || a || '%' || b || '%'` — the pattern shape built at
line 156 of `process_data.py`. -/
def likeTwo (msg a b : List Char) : Bool :=
  match afterSeg a msg with
  | none => false
  | some rest => (afterSeg b rest).isSome

/-- A `processing_logs` row as seen by the idempotency query; `recent` models
`created_at >= NOW() - INTERVAL '1 day'`. -/
structure LogEntry where
  batch_id : String
  operation : String
  status : String
  message : List Char
  recent : Bool
deriving DecidableEq

/-- The WHERE clause of lines 149-156 applied to one row, with
`clicks_hash16`/`feeds_hash16` the 16-character hash prefixes interpolated
into the LIKE pattern. -/
def matchesIdempotency (batch_id : String)
    (clicks_hash16 feeds_hash16 : List Char) (e : LogEntry) : Bool :=
  (e.batch_id != batch_id) && (e.operation == "file_import") &&
    (e.status == "success") && e.recent &&
    likeTwo e.message (("clicks:").toList ++ clicks_hash16)
      (("feeds:").toList ++ feeds_hash16)

/-- The method `check_processing_idempotency` (lines 141-169): true iff `COUNT(*) > 0`
over the matching rows. -/
def check_processing_idempotency (batch_id : String)
    (clicks_hash16 feeds_hash16 : List Char) (logs : List LogEntry) : Bool :=
  logs.any (matchesIdempotency batch_id clicks_hash16 feeds_hash16)

/-- The success message written by `import_csv_data` at line 321 (the
`status = 'success'` case has no error suffix), with the interpolated decimal
renderings of the three counters abstracted as digit strings. -/
def importSuccessMessage (ci fi cs : List Char) : List Char :=
  ("Imported ").toList ++ ci ++ (" clicks, ").toList ++ fi ++
    (" feeds. Skipped: ").toList ++ cs ++ (" clicks.").toList

theorem begMatch_decomp (pat : List Char) :
    ∀ m : List Char, begMatch pat m = true → m = pat ++ m.drop pat.length := by
  induction pat with
  | nil => intro m _; simp
  | cons p ps ih =>
    intro m h
    cases m with
    | nil => simp [begMatch] at h
    | cons c ms =>
      simp only [begMatch, Bool.and_eq_true, beq_iff_eq] at h
      obtain ⟨rfl, h2⟩ := h
      simpa using ih ms h2

theorem afterSeg_decomp (pat : List Char) :
    ∀ msg rest : List Char, afterSeg pat msg = some rest →
      ∃ p, msg = p ++ pat ++ rest := by
  intro msg
  induction msg with
  | nil =>
    intro rest h
    simp only [afterSeg] at h
    split at h
    · rename_i hp
      refine ⟨[], ?_⟩
      have h1 : pat = [] := List.isEmpty_iff.mp hp
      have h2 : rest = [] := by
        injection h with h
        exact h.symm
      simp [h1, h2]
    · exact absurd h (by simp)
  | cons m ms ih =>
    intro rest h
    simp only [afterSeg] at h
    split at h
    · rename_i hbeg
      have hdec := begMatch_decomp pat (m :: ms) hbeg
      refine ⟨[], ?_⟩
      have h2 : rest = (m :: ms).drop pat.length := by
        injection h with h
        exact h.symm
      rw [h2, List.nil_append]
      exact hdec
    · obtain ⟨p, hp⟩ := ih rest h
      exact ⟨m :: p, by simp [hp]⟩

theorem likeTwo_decomp (msg a b : List Char) (h : likeTwo msg a b = true) :
    ∃ p q r, msg = p ++ a ++ q ++ b ++ r := by
  unfold likeTwo at h
  cases ha : afterSeg a msg with
  | none => rw [ha] at h; simp at h
  | some rest =>
    rw [ha] at h
    dsimp only at h
    cases hb : afterSeg b rest with
    | none => rw [hb] at h; simp at h
    | some rest2 =>
      obtain ⟨p, hp⟩ := afterSeg_decomp a msg rest ha
      obtain ⟨q, hq⟩ := afterSeg_decomp b rest rest2 hb
      exact ⟨p, q, rest2, by rw [hp, hq]; simp⟩

theorem digit_count_colon {d : List Char}
    (hd : ∀ ch ∈ d, ch.isDigit = true) : d.count ':' = 0 := by
  rw [List.count_eq_zero]
  intro hmem
  exact absurd (hd ':' hmem) (by decide)

theorem importSuccessMessage_colon_count (ci fi cs : List Char)
    (hci : ∀ ch ∈ ci, ch.isDigit = true) (hfi : ∀ ch ∈ fi, ch.isDigit = true)
    (hcs : ∀ ch ∈ cs, ch.isDigit = true) :
    (importSuccessMessage ci fi cs).count ':' = 1 := by
  unfold importSuccessMessage
  simp only [List.count_append, digit_count_colon hci, digit_count_colon hfi,
    digit_count_colon hcs]
  decide

/-- C9: the idempotency guard's LIKE pattern requires the log message to
contain `clicks:<hash>` and, later, `feeds:<hash>` — hence at least two
colons — but the success message that `import_csv_data` actually logs
contains exactly one colon, so the guard never detects a previous import and
identical re-imports are never skipped. -/
theorem idempotency_guard_never_fires (batch_id : String)
    (clicks_hash16 feeds_hash16 : List Char) (logs : List LogEntry)
    (hmsgs : ∀ e ∈ logs, e.operation = "file_import" → e.status = "success" →
      ∃ ci fi cs, (∀ ch ∈ ci, ch.isDigit = true) ∧
        (∀ ch ∈ fi, ch.isDigit = true) ∧ (∀ ch ∈ cs, ch.isDigit = true) ∧
        e.message = importSuccessMessage ci fi cs) :
    check_processing_idempotency batch_id clicks_hash16 feeds_hash16 logs =
      false := by
  unfold check_processing_idempotency
  rw [List.any_eq_false]
  intro e he
  unfold matchesIdempotency
  by_cases hop : e.operation = "file_import"
  · by_cases hst : e.status = "success"
    · obtain ⟨ci, fi, cs, hci, hfi, hcs, hmsg⟩ := hmsgs e he hop hst
      have hlike : likeTwo e.message (("clicks:").toList ++ clicks_hash16)
          (("feeds:").toList ++ feeds_hash16) = false := by
        by_contra hcon
        have htrue : likeTwo e.message (("clicks:").toList ++ clicks_hash16)
            (("feeds:").toList ++ feeds_hash16) = true := by
          simpa using hcon
        obtain ⟨p, q, r, hsplit⟩ := likeTwo_decomp _ _ _ htrue
        have hcount := congrArg (List.count ':') hsplit
        rw [hmsg, importSuccessMessage_colon_count ci fi cs hci hfi hcs]
          at hcount
        simp only [List.count_append] at hcount
        have hcpat : (("clicks:").toList).count ':' = 1 := by decide
        have hfpat : (("feeds:").toList).count ':' = 1 := by decide
        omega
      rw [hlike]
      simp
    · have hb : (e.status == "success") = false := by
        simpa using hst
      rw [hb]
      simp
  · have hb : (e.operation == "file_import") = false := by
      simpa using hop
    rw [hb]
    simp

/-- C9 witness: a log holding exactly the entry a previous successful import
writes (1 click row, 1 feed row, 0 skipped, same-day, different batch); the
guard still returns false. -/
theorem idempotency_guard_never_fires_witness :
    (∀ e ∈ [(⟨"b0", "file_import", "success",
        importSuccessMessage [Char.ofNat 49] [Char.ofNat 49] [Char.ofNat 48],
        true⟩ : LogEntry)],
      e.operation = "file_import" → e.status = "success" →
      ∃ ci fi cs, (∀ ch ∈ ci, ch.isDigit = true) ∧
        (∀ ch ∈ fi, ch.isDigit = true) ∧ (∀ ch ∈ cs, ch.isDigit = true) ∧
        e.message = importSuccessMessage ci fi cs) ∧
      check_processing_idempotency "b1" [] []
        [⟨"b0", "file_import", "success",
          importSuccessMessage [Char.ofNat 49] [Char.ofNat 49] [Char.ofNat 48],
          true⟩] = false := by
  have hmsgs : ∀ e ∈ [(⟨"b0", "file_import", "success",
      importSuccessMessage [Char.ofNat 49] [Char.ofNat 49] [Char.ofNat 48],
      true⟩ : LogEntry)],
      e.operation = "file_import" → e.status = "success" →
      ∃ ci fi cs, (∀ ch ∈ ci, ch.isDigit = true) ∧
        (∀ ch ∈ fi, ch.isDigit = true) ∧ (∀ ch ∈ cs, ch.isDigit = true) ∧
        e.message = importSuccessMessage ci fi cs := by
    intro e he _ _
    rw [List.mem_singleton] at he
    subst he
    exact ⟨[Char.ofNat 49], [Char.ofNat 49], [Char.ofNat 48],
      by decide, by decide, by decide, rfl⟩
  exact ⟨hmsgs, idempotency_guard_never_fires "b1" [] [] _ hmsgs⟩

end RevenueDist
